import Mathlib

/-!
# Verification of the `test_stubs` proc macro

A shallow embedding of the `test_stubs` crate (src/lib.rs): a proc macro
attribute that, for each trait method without a default body, emits a
`#[cfg(not(test))]` declaration-only variant and a `#[cfg(test)]` variant
whose body is a synthesized stub expression built from the return type.

The embedding mirrors the `syn` data the code inspects.  Rust panics
(`unwrap` on `None` inside `stub_expr_for_ty`) are modelled by `Option`:
a result of `none` means the macro panics and produces no output.
-/

namespace TestStubs

mutual

/-- Subset of the `syn` type grammar inspected by the code:
`Type::ImplTrait`, `Type::Path`, `Type::Tuple`; all other `Type`
variants (hit only by the catch-all arm) are collapsed into `other`. -/
inductive Ty where
  | implTrait (bounds : List Bound)
  | path (qselfSome : Bool) (p : Path)
  | tuple (elems : List Ty)
  | other
  deriving Repr

inductive Path where
  | mk (leadingColon : Bool) (segments : List Seg)
  deriving Repr

inductive Seg where
  | mk (ident : String) (arguments : Args)
  deriving Repr

inductive Args where
  | noArgs
  | angleBracketed (args : List GArg)
  | parenthesized
  deriving Repr

inductive GArg where
  | typeArg (ty : Ty)
  | otherArg
  deriving Repr

inductive Bound where
  | traitBound (p : Path)
  | otherBound
  deriving Repr

end

/-- The segments of a path. -/
def Path.segments : Path → List Seg
  | .mk _ segs => segs

/-- Whether the path has a leading `::`. -/
def Path.leadingColon : Path → Bool
  | .mk lc _ => lc

/-- The identifier of a path segment. -/
def Seg.ident : Seg → String
  | .mk id _ => id

/-- The arguments of a path segment. -/
def Seg.arguments : Seg → Args
  | .mk _ args => args

/-- `syn::Path::is_ident`: no leading colon, exactly one segment, that
segment has no arguments, and its identifier is `s`. -/
def Path.is_ident (p : Path) (s : String) : Bool :=
  match p with
  | .mk lc segs =>
    !lc &&
      (match segs with
       | [.mk id args] =>
           (match args with
            | .noArgs => id == s
            | _ => false)
       | _ => false)

/-- A path consisting of the single bare identifier `s`. -/
def identPath (s : String) : Path := .mk false [.mk s .noArgs]

/-- The stub expressions `stub_expr_for_ty` can build (the `quote!`
token streams, kept structured). -/
inductive StubExpr where
  | todoNamed (name : String)
  | todoAsEmptyIter (name : String)
  | boxNew (e : StubExpr)
  | someE (e : StubExpr)
  | okE (e : StubExpr)
  | tupleE (es : List StubExpr)
  deriving Repr

/-- `args.iter().find_map(|arg| match arg { GenericArgument::Type(ty) => Some(ty), _ => None })`:
the first generic argument that is a type argument. -/
def firstTyArg : List GArg → Option Ty
  | [] => none
  | .typeArg t :: _ => some t
  | .otherArg :: rest => firstTyArg rest

/-- The `bounds.iter().any(..)` Iterator check of `stub_expr_for_ty`.
For each trait bound it unwraps `path.segments.last()`; `none` models
the panic when a trait bound has an empty path, with the same
short-circuiting as Rust `any`. -/
def anyIterBound : List Bound → Option Bool
  | [] => some false
  | .traitBound p :: rest =>
      match p.segments.getLast? with
      | none => none
      | some s => if s.ident == "Iterator" then some true else anyIterBound rest
  | .otherBound :: rest => anyIterBound rest

theorem sizeOf_firstTyArg {l : List GArg} {t : Ty} (h : firstTyArg l = some t) :
    sizeOf t < sizeOf l := by
  induction l with
  | nil => simp [firstTyArg] at h
  | cons a rest ih =>
    cases a with
    | typeArg u =>
      simp [firstTyArg] at h
      subst h
      simp
      omega
    | otherArg =>
      simp [firstTyArg] at h
      have := ih h
      simp
      omega

theorem mem_of_getLastQ {α : Type} {l : List α} {a : α} (h : l.getLast? = some a) :
    a ∈ l := by
  induction l with
  | nil => simp at h
  | cons x xs ih =>
    cases xs with
    | nil =>
      simp [List.getLast?] at h
      simp [h]
    | cons y ys =>
      rw [List.getLast?_cons_cons] at h
      exact List.mem_cons_of_mem _ (ih h)

theorem sizeOf_getLastQ {l : List Seg} {s : Seg} (h : l.getLast? = some s) :
    sizeOf s < sizeOf l :=
  List.sizeOf_lt_of_mem (mem_of_getLastQ h)

mutual

/-- `stub_expr_for_ty` from src/lib.rs, lines 177-223.  Returns `none`
exactly when the Rust code would panic (an `unwrap` on `None`). -/
def stub_expr_for_ty : Ty → String → Option StubExpr
  | .implTrait bounds, name =>
      match anyIterBound bounds with
      | none => none
      | some true => some (.todoAsEmptyIter name)
      | some false => some (.todoNamed name)
  | .path _ (.mk _ segs), name =>
      match hl : segs.getLast? with
      | none => none
      | some (.mk id args) =>
          match args with
          | .angleBracketed gargs =>
              match ht : firstTyArg gargs with
              | none => none
              | some outerty =>
                  match stub_expr_for_ty outerty name with
                  | none => none
                  | some stub =>
                      some (if id == "Box" then .boxNew stub
                            else if id == "Option" then .someE stub
                            else if id == "Result" then .okE stub
                            else .todoNamed name)
          | _ => some (.todoNamed name)
  | .tuple elems, name =>
      match stubList elems name with
      | none => none
      | some es => some (.tupleE es)
  | .other, name => some (.todoNamed name)
termination_by t _ => sizeOf t
decreasing_by
  · have h1 := sizeOf_getLastQ hl
    have h2 := sizeOf_firstTyArg ht
    simp at h1
    simp
    omega
  · simp

/-- Elementwise stub synthesis for the elements of a tuple type. -/
def stubList : List Ty → String → Option (List StubExpr)
  | [], _ => some []
  | t :: ts, name =>
      match stub_expr_for_ty t name with
      | none => none
      | some e =>
          match stubList ts name with
          | none => none
          | some es => some (e :: es)
termination_by ts _ => sizeOf ts
decreasing_by
  · simp <;> omega
  · simp <;> omega

end

/-- `syn::Meta`: the meta of an attribute.  `#[cfg(test)]` parses as
`Meta.list` with path `cfg` and token string `test`. -/
inductive Meta where
  | path (p : Path)
  | list (p : Path) (tokens : String)
  | nameValue (p : Path) (value : String)
  deriving Repr

/-- `syn::Meta::path()`. -/
def Meta.metaPath : Meta → Path
  | .path p => p
  | .list p _ => p
  | .nameValue p _ => p

/-- `syn::Attribute` (only the meta matters to the code). -/
structure Attribute where
  meta : Meta
  deriving Repr

/-- `syn::Attribute::path()`, which is `self.meta.path()`. -/
def Attribute.attrPath (a : Attribute) : Path := a.meta.metaPath

/-- The attribute `#[cfg(test)]`. -/
def cfgTestAttr : Attribute := ⟨.list (identPath "cfg") "test"⟩

/-- The attribute `#[cfg(not(test))]`. -/
def cfgNotTestAttr : Attribute := ⟨.list (identPath "cfg") "not(test)"⟩

/-- The attribute `#[allow(unused_variables)]`. -/
def allowUnusedVariablesAttr : Attribute := ⟨.list (identPath "allow") "unused_variables"⟩

/-- The attribute `#[allow(unreachable_code)]`. -/
def allowUnreachableCodeAttr : Attribute := ⟨.list (identPath "allow") "unreachable_code"⟩

/-- The skip check of src/lib.rs lines 91-94, exactly as written:
`x.path().is_ident("cfg") && matches!(&x.meta, Meta::List(y) if y.path.is_ident("test"))`.
Note that `x.path()` and `y.path` are the same path. -/
def attrIsCfgTest (x : Attribute) : Bool :=
  x.attrPath.is_ident "cfg" &&
    (match x.meta with
     | .list y _ => y.is_ident "test"
     | _ => false)

/-- `syn::WherePredicate`: a type predicate `T: bounds` or anything else. -/
inductive WherePredicate where
  | typePred (boundedTy : Ty) (bounds : List Bound)
  | otherPred
  deriving Repr

/-- `is_self_sized_pred` from src/lib.rs, lines 147-162: the predicate is
`WherePredicate::Type`, its bounded type is a path with no qself, exactly
one segment whose ident is `Self`, and some bound is a trait bound whose
path `is_ident` `Sized`. -/
def is_self_sized_pred : WherePredicate → Bool
  | .typePred bty bounds =>
      (match bty with
       | .path qselfSome (.mk _ segs) =>
           !qselfSome && decide (segs.length = 1) &&
             (match segs.head? with
              | some s => s.ident == "Self"
              | none => false)
       | _ => false)
      && bounds.any (fun b =>
           match b with
           | .traitBound p => p.is_ident "Sized"
           | .otherBound => false)
  | .otherPred => false

/-- The predicate `Self: Sized` produced by `syn::parse_quote!(Self: Sized)`. -/
def selfSizedPred : WherePredicate :=
  .typePred (.path false (identPath "Self")) [.traitBound (identPath "Sized")]

/-- `syn::FnArg`: a receiver (with or without a reference) or a typed
argument.  `receiver hasRef` models `FnArg::Receiver` with
`reference.is_some() = hasRef`. -/
inductive FnArg where
  | receiver (hasRef : Bool)
  | typed
  deriving Repr

/-- `syn::ReturnType`. -/
inductive ReturnType where
  | default
  | ty (t : Ty)
  deriving Repr

/-- The generics of a signature, reduced to the optional where clause
(the only part the code touches), itself reduced to its predicates. -/
structure Generics where
  whereClause : Option (List WherePredicate)
  deriving Repr

/-- `syn::Signature`, reduced to the fields the code reads or writes. -/
structure Signature where
  ident : String
  inputs : List FnArg
  generics : Generics
  output : ReturnType
  deriving Repr

/-- A method body: either a stub block synthesized by the macro or a
pre-existing user-written default body (never inspected by the macro). -/
inductive Block where
  | ofStub (e : StubExpr)
  | userBody (n : Nat)
  deriving Repr

/-- `syn::TraitItemFn`, reduced to the fields the code reads or writes. -/
structure TraitItemFn where
  attrs : List Attribute
  sig : Signature
  default : Option Block
  deriving Repr

/-- `syn::TraitItem`: a function item or any other trait item
(associated const, type, ...), never inspected by the macro. -/
inductive TraitItem where
  | fn (f : TraitItemFn)
  | otherItem (n : Nat)
  deriving Repr

/-- `syn::ItemTrait`, reduced to attributes and items. -/
structure ItemTrait where
  attrs : List Attribute
  items : List TraitItem
  deriving Repr

/-- src/lib.rs lines 116-125: if the first input is a by-value `self`
receiver, materialize the where clause (`make_where_clause`) and push
`Self: Sized` unless some predicate already `is_self_sized_pred`. -/
def addSelfSized (meth : TraitItemFn) : TraitItemFn :=
  match meth.sig.inputs.head? with
  | some (.receiver false) =>
      let preds := meth.sig.generics.whereClause.getD []
      let preds :=
        if preds.any is_self_sized_pred then preds else preds ++ [selfSizedPred]
      { meth with sig := { meth.sig with generics := ⟨some preds⟩ } }
  | _ => meth

/-- src/lib.rs lines 99-102: the `#[cfg(not(test))]` variant is a clone of
the method with the attribute pushed. -/
def notTestVariant (meth : TraitItemFn) : TraitItemFn :=
  { meth with attrs := meth.attrs ++ [cfgNotTestAttr] }

/-- src/lib.rs lines 127-133: the stub expression for the method body,
from the name and the return type. -/
def stubBody (sig : Signature) : Option StubExpr :=
  match sig.output with
  | .default => some (.todoNamed sig.ident)
  | .ty ty => stub_expr_for_ty ty sig.ident

/-- src/lib.rs lines 104-112: the attributes pushed onto the
`#[cfg(test)]` variant: `#[cfg(test)]`, `#[allow(unused_variables)]`,
`#[allow(unreachable_code)]`, in that order. -/
def withTestAttrs (meth : TraitItemFn) : TraitItemFn :=
  { meth with
    attrs := meth.attrs ++
      [cfgTestAttr, allowUnusedVariablesAttr, allowUnreachableCodeAttr] }

/-- src/lib.rs lines 104-136: the `#[cfg(test)]` variant: pushed
attributes; `Self: Sized` handling; synthesized body. -/
def testVariant (meth : TraitItemFn) : Option TraitItemFn :=
  match stubBody (addSelfSized (withTestAttrs meth)).sig with
  | none => none
  | some e => some { addSelfSized (withTestAttrs meth) with default := some (.ofStub e) }

/-- The loop body of `test_stubs` (src/lib.rs lines 87-139): what the
macro pushes onto `new_items` for one input trait item. -/
def processItem : TraitItem → Option (List TraitItem)
  | .fn meth =>
      if meth.default.isNone then
        if meth.attrs.any attrIsCfgTest then
          some [.fn meth]
        else
          match testVariant meth with
          | none => none
          | some tv => some [.fn (notTestVariant meth), .fn tv]
      else some [.fn meth]
  | .otherItem n => some [.otherItem n]

/-- The whole `for` loop of `test_stubs`: concatenation of the items
pushed for each input item, propagating a panic. -/
def stubItems : List TraitItem → Option (List TraitItem)
  | [] => some []
  | it :: rest =>
      match processItem it with
      | none => none
      | some here =>
          match stubItems rest with
          | none => none
          | some there => some (here ++ there)

/-- `test_stubs` from src/lib.rs, lines 77-144: push
`#[allow(unreachable_code)]` onto the trait attributes, rewrite the
items, rebuild the trait.  `none` models a macro panic. -/
def test_stubs (traitItem : ItemTrait) : Option ItemTrait :=
  match stubItems traitItem.items with
  | none => none
  | some newItems =>
      some { attrs := traitItem.attrs ++ [allowUnreachableCodeAttr]
             items := newItems }

mutual

/-- The messages of all `todo!` invocations occurring in a stub
expression, in evaluation order. -/
def todoNames : StubExpr → List String
  | .todoNamed n => [n]
  | .todoAsEmptyIter n => [n]
  | .boxNew e => todoNames e
  | .someE e => todoNames e
  | .okE e => todoNames e
  | .tupleE es => todoNamesList es
termination_by e => sizeOf e
decreasing_by all_goals simp <;> omega

/-- `todoNames` over a list of stub expressions. -/
def todoNamesList : List StubExpr → List String
  | [] => []
  | e :: es => todoNames e ++ todoNamesList es
termination_by es => sizeOf es
decreasing_by all_goals simp <;> omega

end

mutual

/-- Evaluation outcome of a stub expression: the message of the first
`todo!` reached (the expression panics with it), or `none` when the
expression contains no `todo!` and returns a value normally. -/
def firstPanic : StubExpr → Option String
  | .todoNamed n => some n
  | .todoAsEmptyIter n => some n
  | .boxNew e => firstPanic e
  | .someE e => firstPanic e
  | .okE e => firstPanic e
  | .tupleE es => firstPanicList es
termination_by e => sizeOf e
decreasing_by all_goals simp <;> omega

/-- `firstPanic` over tuple elements, evaluated left to right. -/
def firstPanicList : List StubExpr → Option String
  | [] => none
  | e :: es =>
      match firstPanic e with
      | some n => some n
      | none => firstPanicList es
termination_by es => sizeOf es
decreasing_by all_goals simp <;> omega

end

/-- Whether a bound is a trait bound whose path ends in the identifier
`Iterator` (the claim-side reading of the bound check, without the
short-circuit and panic behaviour of the Rust `any` closure). -/
def boundMentionsIterator : Bound → Bool
  | .traitBound p =>
      match p.segments.getLast? with
      | some s => s.ident == "Iterator"
      | none => false
  | .otherBound => false

/-- The return types C5 calls not specially recognized: not an
impl-trait with an Iterator bound, not a tuple, and not a path whose
last segment is `Box`, `Option` or `Result` carrying a type argument. -/
def unrecognized : Ty → Bool
  | .implTrait bounds => !(bounds.any boundMentionsIterator)
  | .tuple _ => false
  | .path _ (.mk _ segs) =>
      match segs.getLast? with
      | none => true
      | some (.mk id args) =>
          match args with
          | .angleBracketed gargs =>
              if (firstTyArg gargs).isSome then
                !(id == "Box" || id == "Option" || id == "Result")
              else true
          | _ => true
  | .other => true

/-- `Option<t>` (a single-segment path `Option` with `t` as the first
generic argument). -/
def optionTy (t : Ty) : Ty :=
  .path false (.mk false [.mk "Option" (.angleBracketed [.typeArg t])])

/-- `Result<t, e>`. -/
def resultTy (t e : Ty) : Ty :=
  .path false (.mk false [.mk "Result" (.angleBracketed [.typeArg t, .typeArg e])])

/-- `Box<t>`. -/
def boxTy (t : Ty) : Ty :=
  .path false (.mk false [.mk "Box" (.angleBracketed [.typeArg t])])

/-- `impl Iterator<..>`: an impl-trait type with a single trait bound
whose path is the single segment `Iterator` with arguments `a`. -/
def implIteratorTy (a : Args) : Ty :=
  .implTrait [.traitBound (.mk false [.mk "Iterator" a])]

/-- The type `u8` (a bare single-segment path). -/
def u8Ty : Ty := .path false (identPath "u8")

/-- `Foo<..>` with only non-type (lifetime or const) generic arguments. -/
def lifetimeOnlyTy : Ty :=
  .path false (.mk false [.mk "Foo" (.angleBracketed [.otherArg])])

/-- Example method `fn g(&self);`: no attributes, `&self` receiver,
default return type, no body. -/
def exMethG : TraitItemFn :=
  ⟨[], ⟨"g", [.receiver true], ⟨none⟩, .default⟩, none⟩

/-- Example method `fn f(&self) -> ();`: explicit empty-tuple return
type, no body. -/
def exMethUnit : TraitItemFn :=
  ⟨[], ⟨"f", [.receiver true], ⟨none⟩, .ty (.tuple [])⟩, none⟩

/-- Example method `#[cfg(test)] fn f(&self);`. -/
def exMethCfgTest : TraitItemFn :=
  ⟨[cfgTestAttr], ⟨"f", [.receiver true], ⟨none⟩, .default⟩, none⟩

/-- Example method `fn x(self);`: by-value `self` receiver. -/
def exMethSelf : TraitItemFn :=
  ⟨[], ⟨"x", [.receiver false], ⟨none⟩, .default⟩, none⟩

/-- The `#[cfg(test)]` variant the macro produces for `exMethSelf`:
test attributes pushed, `where Self: Sized` added, stub body. -/
def exMethSelfTest : TraitItemFn :=
  ⟨[cfgTestAttr, allowUnusedVariablesAttr, allowUnreachableCodeAttr],
   ⟨"x", [.receiver false], ⟨some [selfSizedPred]⟩, .default⟩,
   some (.ofStub (.todoNamed "x"))⟩

/-- The `#[cfg(test)]` variant the macro produces for `exMethG`. -/
def exMethGTest : TraitItemFn :=
  ⟨[cfgTestAttr, allowUnusedVariablesAttr, allowUnreachableCodeAttr],
   ⟨"g", [.receiver true], ⟨none⟩, .default⟩,
   some (.ofStub (.todoNamed "g"))⟩

/-- The output of the macro on `exTrait`. -/
def exTraitOut : ItemTrait :=
  ⟨[allowUnreachableCodeAttr], [.fn (notTestVariant exMethG), .fn exMethGTest]⟩

/-- Example method `fn d(&self) -> u8 { .. }`: has a default body. -/
def exMethDefault : TraitItemFn :=
  ⟨[], ⟨"d", [.receiver true], ⟨none⟩, .ty u8Ty⟩, some (.userBody 0)⟩

/-- Example trait `trait T { fn g(&self); }`. -/
def exTrait : ItemTrait := ⟨[], [.fn exMethG]⟩

theorem attrIsCfgTest_false (a : Attribute) : attrIsCfgTest a = false := by
  obtain ⟨m⟩ := a
  cases m with
  | path p => simp [attrIsCfgTest]
  | nameValue p v => simp [attrIsCfgTest]
  | list p t =>
    obtain ⟨lc, segs⟩ := p
    match lc, segs with
    | true, segs =>
      simp [attrIsCfgTest, Attribute.attrPath, Meta.metaPath, Path.is_ident]
    | false, [] => rfl
    | false, Seg.mk id args :: s2 :: rest =>
      simp [attrIsCfgTest, Attribute.attrPath, Meta.metaPath, Path.is_ident]
    | false, [Seg.mk id args] =>
      cases args with
      | angleBracketed gargs =>
        simp [attrIsCfgTest, Attribute.attrPath, Meta.metaPath, Path.is_ident]
      | parenthesized =>
        simp [attrIsCfgTest, Attribute.attrPath, Meta.metaPath, Path.is_ident]
      | noArgs =>
        by_cases h : id = "cfg"
        · subst h
          simp [attrIsCfgTest, Attribute.attrPath, Meta.metaPath, Path.is_ident]
        · simp [attrIsCfgTest, Attribute.attrPath, Meta.metaPath, Path.is_ident, h]

theorem any_attrIsCfgTest (l : List Attribute) : l.any attrIsCfgTest = false := by
  induction l with
  | nil => rfl
  | cons a rest ih => simp [List.any_cons, attrIsCfgTest_false, ih]

theorem processItem_fn_noDefault (meth : TraitItemFn) (hdef : meth.default = none) :
    processItem (.fn meth) =
      match testVariant meth with
      | none => none
      | some tv => some [.fn (notTestVariant meth), .fn tv] := by
  simp [processItem, hdef, any_attrIsCfgTest]

theorem stubItems_append (l1 l2 : List TraitItem) :
    stubItems (l1 ++ l2) =
      (stubItems l1).bind fun a => (stubItems l2).map fun b => a ++ b := by
  induction l1 with
  | nil =>
    cases h : stubItems l2 <;> simp [stubItems, h]
  | cons it rest ih =>
    simp only [List.cons_append, stubItems, ih]
    cases hp : processItem it with
    | none => simp
    | some here =>
      cases hr : stubItems rest with
      | none => simp [ih, hr]
      | some a =>
        cases h2 : stubItems l2 with
        | none => simp [ih, hr, h2]
        | some b => simp [ih, hr, h2, List.append_assoc]

theorem addSelfSized_attrs (m : TraitItemFn) : (addSelfSized m).attrs = m.attrs := by
  unfold addSelfSized
  split <;> rfl

theorem addSelfSized_default (m : TraitItemFn) : (addSelfSized m).default = m.default := by
  unfold addSelfSized
  split <;> rfl

theorem addSelfSized_ident (m : TraitItemFn) : (addSelfSized m).sig.ident = m.sig.ident := by
  unfold addSelfSized
  split <;> rfl

theorem addSelfSized_output (m : TraitItemFn) : (addSelfSized m).sig.output = m.sig.output := by
  unfold addSelfSized
  split <;> rfl

theorem is_self_sized_selfSizedPred : is_self_sized_pred selfSizedPred = true := by rfl

theorem stub_todoNames (ty : Ty) (name : String) :
    ∀ e, stub_expr_for_ty ty name = some e → ∀ m ∈ todoNames e, m = name := by
  refine stub_expr_for_ty.induct
    (fun ty name => ∀ e, stub_expr_for_ty ty name = some e → ∀ m ∈ todoNames e, m = name)
    (fun ts name => ∀ es, stubList ts name = some es → ∀ m ∈ todoNamesList es, m = name)
    ?_ ?_ ?_ ?_ ?_ ?_ ?_ ?_ ?_ ?_ ?_ ?_ ?_ ?_ ?_ ty name
  · intro bounds name hb e he
    rw [stub_expr_for_ty, hb] at he
    exact Option.noConfusion he
  · intro bounds name hb e he m hm
    rw [stub_expr_for_ty, hb] at he
    obtain rfl := Option.some_inj.mp he
    simpa [todoNames] using hm
  · intro bounds name hb e he m hm
    rw [stub_expr_for_ty, hb] at he
    obtain rfl := Option.some_inj.mp he
    simpa [todoNames] using hm
  · intro q lc segs name hl e he
    rw [stub_expr_for_ty] at he
    split at he
    · exact Option.noConfusion he
    · rename_i id args heq
      rw [hl] at heq
      exact Option.noConfusion heq
  · intro q lc segs name id gargs hl hft hl2 e he
    rw [stub_expr_for_ty] at he
    split at he
    · exact Option.noConfusion he
    · rename_i id2 args2 heq
      rw [hl] at heq
      injection heq with heq2
      injection heq2 with hid hargs
      subst hid
      subst hargs
      split at he
      · rename_i hargs2 hga
        injection hargs2 with h
        subst h
        split at he
        · exact Option.noConfusion he
        · rename_i outerty2 hft2
          rw [hft] at hft2
          exact Option.noConfusion hft2
      · rename_i h
        exact absurd rfl (fun hr => h gargs hl hr HEq.rfl)
  · intro q lc segs name id gargs hl outerty hft hstub hl2 IH e he
    rw [stub_expr_for_ty] at he
    split at he
    · exact Option.noConfusion he
    · rename_i id2 args2 heq
      rw [hl] at heq
      injection heq with heq2
      injection heq2 with hid hargs
      subst hid
      subst hargs
      split at he
      · rename_i hargs2 hga
        injection hargs2 with h
        subst h
        split at he
        · rename_i hft2
          rw [hft] at hft2
          exact Option.noConfusion hft2
        · rename_i outerty2 hft2
          rw [hft] at hft2
          injection hft2 with ho
          subst ho
          rw [hstub] at he
          exact Option.noConfusion he
      · rename_i h
        exact absurd rfl (fun hr => h gargs hl hr HEq.rfl)
  · intro q lc segs name id gargs hl outerty hft stub hstub hl2 IH e he m hm
    rw [stub_expr_for_ty] at he
    split at he
    · exact Option.noConfusion he
    · rename_i id2 args2 heq
      rw [hl] at heq
      injection heq with heq2
      injection heq2 with hid hargs
      subst hid
      subst hargs
      split at he
      · rename_i hargs2 hga
        injection hargs2 with h
        subst h
        split at he
        · rename_i hft2
          rw [hft] at hft2
          exact Option.noConfusion hft2
        · rename_i outerty2 hft2
          rw [hft] at hft2
          injection hft2 with ho
          subst ho
          rw [hstub] at he
          obtain rfl := Option.some_inj.mp he
          split at hm
          · exact IH stub hstub m (by simpa [todoNames] using hm)
          · split at hm
            · exact IH stub hstub m (by simpa [todoNames] using hm)
            · split at hm
              · exact IH stub hstub m (by simpa [todoNames] using hm)
              · simpa [todoNames] using hm
      · rename_i h
        exact absurd rfl (fun hr => h gargs hl hr HEq.rfl)
  · intro q lc segs name id args hl1 hl hnot e he m hm
    cases args with
    | angleBracketed gargs => exact (hnot gargs hl rfl HEq.rfl).elim
    | noArgs =>
      rw [stub_expr_for_ty] at he
      split at he
      · exact Option.noConfusion he
      · rename_i id2 args2 heq
        rw [hl] at heq
        injection heq with heq2
        injection heq2 with hid hargs
        subst hid
        subst hargs
        obtain rfl := Option.some_inj.mp he
        simpa [todoNames] using hm
    | parenthesized =>
      rw [stub_expr_for_ty] at he
      split at he
      · exact Option.noConfusion he
      · rename_i id2 args2 heq
        rw [hl] at heq
        injection heq with heq2
        injection heq2 with hid hargs
        subst hid
        subst hargs
        obtain rfl := Option.some_inj.mp he
        simpa [todoNames] using hm
  · intro elems name hsl IH e he
    rw [stub_expr_for_ty, hsl] at he
    exact Option.noConfusion he
  · intro elems name es hsl IH e he m hm
    rw [stub_expr_for_ty, hsl] at he
    obtain rfl := Option.some_inj.mp he
    exact IH es hsl m (by simpa [todoNames] using hm)
  · intro name e he m hm
    rw [stub_expr_for_ty] at he
    obtain rfl := Option.some_inj.mp he
    simpa [todoNames] using hm
  · intro name es hes m hm
    rw [stubList] at hes
    obtain rfl := Option.some_inj.mp hes
    simp [todoNamesList] at hm
  · intro t ts name hstub IH es hes
    rw [stubList, hstub] at hes
    exact Option.noConfusion hes
  · intro t ts name stub hstub hsl IH1 IH2 es hes
    rw [stubList, hstub, hsl] at hes
    exact Option.noConfusion hes
  · intro t ts name stub hstub es hsl IH1 IH2 es2 hes m hm
    rw [stubList, hstub, hsl] at hes
    obtain rfl := Option.some_inj.mp hes
    rw [todoNamesList] at hm
    rcases List.mem_append.mp hm with hm | hm
    · exact IH1 stub hstub m hm
    · exact IH2 es hsl m hm

theorem firstPanic_mem (e : StubExpr) :
    ∀ m, firstPanic e = some m → m ∈ todoNames e := by
  refine firstPanic.induct
    (fun e => ∀ m, firstPanic e = some m → m ∈ todoNames e)
    (fun es => ∀ m, firstPanicList es = some m → m ∈ todoNamesList es)
    ?_ ?_ ?_ ?_ ?_ ?_ ?_ ?_ ?_ e
  · intro a m h
    simp [firstPanic] at h
    subst h
    simp [todoNames]
  · intro a m h
    simp [firstPanic] at h
    subst h
    simp [todoNames]
  · intro a IH m h
    simp [firstPanic] at h
    simp [todoNames]
    exact IH m h
  · intro a IH m h
    simp [firstPanic] at h
    simp [todoNames]
    exact IH m h
  · intro a IH m h
    simp [firstPanic] at h
    simp [todoNames]
    exact IH m h
  · intro a IH m h
    simp [firstPanic] at h
    simp [todoNames]
    exact IH m h
  · intro m h
    rw [firstPanicList] at h
    exact Option.noConfusion h
  · intro e es n hfp IH m h
    rw [firstPanicList.eq_def] at h
    split at h
    · exact Option.noConfusion h
    · rename_i e2 es2 heq
      injection heq with he1 he2
      subst he1
      subst he2
      split at h
      · rename_i k heq2
        rw [hfp] at heq2
        injection heq2 with hk
        subst hk
        obtain rfl := Option.some_inj.mp h
        rw [todoNamesList]
        exact List.mem_append.mpr (Or.inl (IH n hfp))
      · rename_i heq2
        rw [hfp] at heq2
        exact Option.noConfusion heq2
  · intro e es hfp IH1 IH2 m h
    rw [firstPanicList.eq_def] at h
    split at h
    · exact Option.noConfusion h
    · rename_i e2 es2 heq
      injection heq with he1 he2
      subst he1
      subst he2
      split at h
      · rename_i k heq2
        rw [hfp] at heq2
        exact Option.noConfusion heq2
      · rw [todoNamesList]
        exact List.mem_append.mpr (Or.inr (IH2 m h))

theorem anyIterBound_of_not_mention {bounds : List Bound}
    (h : bounds.any boundMentionsIterator = false) :
    anyIterBound bounds ≠ some true := by
  induction bounds with
  | nil => simp [anyIterBound]
  | cons b rest ih =>
    rw [List.any_cons, Bool.or_eq_false_iff] at h
    obtain ⟨h1, h2⟩ := h
    cases b with
    | otherBound =>
      simpa [anyIterBound] using ih h2
    | traitBound p =>
      cases hgl : p.segments.getLast? with
      | none => simp [anyIterBound, hgl]
      | some s =>
        have hs : (s.ident == "Iterator") = false := by
          simpa [boundMentionsIterator, hgl] using h1
        simpa [anyIterBound, hgl, hs] using ih h2

theorem stubItems_middle {pre post : List TraitItem} {x : TraitItem} {l : List TraitItem}
    (h : stubItems (pre ++ x :: post) = some l) :
    ∃ a mid b, stubItems pre = some a ∧ processItem x = some mid ∧
      stubItems post = some b ∧ l = a ++ mid ++ b := by
  rw [stubItems_append] at h
  cases hpre : stubItems pre with
  | none => rw [hpre] at h; exact Option.noConfusion h
  | some a =>
    rw [hpre] at h
    cases hx : processItem x with
    | none => simp [stubItems, hx] at h
    | some mid =>
      cases hpost : stubItems post with
      | none => simp [stubItems, hx, hpost] at h
      | some b =>
        simp [stubItems, hx, hpost] at h
        refine ⟨a, mid, b, rfl, rfl, rfl, ?_⟩
        rw [List.append_assoc]
        exact h.symm

theorem testVariant_some {meth v2 : TraitItemFn} (h : testVariant meth = some v2) :
    ∃ e, stubBody (addSelfSized (withTestAttrs meth)).sig = some e ∧
      v2 = { addSelfSized (withTestAttrs meth) with default := some (.ofStub e) } := by
  rw [testVariant] at h
  cases hsb : stubBody (addSelfSized (withTestAttrs meth)).sig with
  | none => rw [hsb] at h; exact Option.noConfusion h
  | some e => rw [hsb] at h; exact ⟨e, rfl, (Option.some_inj.mp h).symm⟩

theorem addSelfSized_recv {m : TraitItemFn}
    (h : m.sig.inputs.head? = some (.receiver false)) :
    (addSelfSized m).sig.generics.whereClause =
      some (if (m.sig.generics.whereClause.getD []).any is_self_sized_pred
            then m.sig.generics.whereClause.getD []
            else m.sig.generics.whereClause.getD [] ++ [selfSizedPred]) := by
  rw [addSelfSized, h]

theorem stubBody_todoNames {sig : Signature} {e : StubExpr} (h : stubBody sig = some e) :
    ∀ m ∈ todoNames e, m = sig.ident := by
  rw [stubBody] at h
  split at h
  · obtain rfl := Option.some_inj.mp h
    intro m hm
    simpa [todoNames] using hm
  · exact stub_todoNames _ sig.ident e h

theorem stub_expr_lifetimeOnly : stub_expr_for_ty lifetimeOnlyTy "f" = none := by
  rw [lifetimeOnlyTy, stub_expr_for_ty]
  simp [firstTyArg]

theorem stub_expr_u8 : stub_expr_for_ty u8Ty "f" = some (.todoNamed "f") := by
  rw [u8Ty, identPath, stub_expr_for_ty]
  simp

/-- C1: for every method of the input trait without a default body, a
successful run of `test_stubs` emits exactly two variants of that method
at its position in the output trait: the `#[cfg(not(test))]` copy with
no body, and a `#[cfg(test)]` copy with a synthesized stub body. -/
theorem c1_bodyless_method_two_variants (attrs : List Attribute)
    (pre post : List TraitItem) (meth : TraitItemFn) (out : ItemTrait)
    (hdef : meth.default = none)
    (hout : test_stubs ⟨attrs, pre ++ .fn meth :: post⟩ = some out) :
    ∃ a v2 b,
      stubItems pre = some a ∧ stubItems post = some b ∧
      testVariant meth = some v2 ∧
      out.items = a ++ [.fn (notTestVariant meth), .fn v2] ++ b ∧
      cfgNotTestAttr ∈ (notTestVariant meth).attrs ∧
      (notTestVariant meth).default = none ∧
      cfgTestAttr ∈ v2.attrs ∧
      ∃ e, v2.default = some (Block.ofStub e) := by
  rw [test_stubs] at hout
  cases hsi : stubItems (pre ++ TraitItem.fn meth :: post) with
  | none => rw [hsi] at hout; exact Option.noConfusion hout
  | some newItems =>
    rw [hsi] at hout
    obtain rfl := Option.some_inj.mp hout
    obtain ⟨a, mid, b, hpre, hx, hpost, hl⟩ := stubItems_middle hsi
    rw [processItem_fn_noDefault meth hdef] at hx
    cases htv : testVariant meth with
    | none => rw [htv] at hx; exact Option.noConfusion hx
    | some v2 =>
      rw [htv] at hx
      obtain rfl := Option.some_inj.mp hx
      obtain ⟨e, hsb, rfl⟩ := testVariant_some htv
      refine ⟨a, { addSelfSized (withTestAttrs meth) with default := some (.ofStub e) },
        b, hpre, hpost, rfl, hl, ?_, hdef, ?_, ⟨e, rfl⟩⟩
      · simp [notTestVariant]
      · show cfgTestAttr ∈ (addSelfSized (withTestAttrs meth)).attrs
        rw [addSelfSized_attrs]
        simp [withTestAttrs]

/-- Witness for C1 at the concrete input trait `trait T { fn g(&self); }`. -/
theorem c1_witness :
    ∃ a v2 b,
      stubItems [] = some a ∧ stubItems [] = some b ∧
      testVariant exMethG = some v2 ∧
      exTraitOut.items = a ++ [.fn (notTestVariant exMethG), .fn v2] ++ b ∧
      cfgNotTestAttr ∈ (notTestVariant exMethG).attrs ∧
      (notTestVariant exMethG).default = none ∧
      cfgTestAttr ∈ v2.attrs ∧
      ∃ e, v2.default = some (Block.ofStub e) :=
  c1_bodyless_method_two_variants [] [] [] exMethG exTraitOut rfl rfl

/-- C2: the stub synthesizer recursively follows the return type,
producing `Some(..)` for `Option<T>`, `Ok(..)` for `Result<T, E>`,
`Box::new(..)` for `Box<T>`, a tuple of elementwise stubs for a tuple,
and a cast to `std::iter::Empty` for an `impl Iterator` type. -/
theorem c2_stub_expr_special_cases (t e2 : Ty) (ts : List Ty) (a : Args) (n : String) :
    stub_expr_for_ty (optionTy t) n = (stub_expr_for_ty t n).map .someE ∧
    stub_expr_for_ty (resultTy t e2) n = (stub_expr_for_ty t n).map .okE ∧
    stub_expr_for_ty (boxTy t) n = (stub_expr_for_ty t n).map .boxNew ∧
    stub_expr_for_ty (.tuple ts) n = (stubList ts n).map .tupleE ∧
    stub_expr_for_ty (implIteratorTy a) n = some (.todoAsEmptyIter n) := by
  refine ⟨?_, ?_, ?_, ?_, ?_⟩
  · rw [optionTy, stub_expr_for_ty]
    cases h : stub_expr_for_ty t n <;> simp [firstTyArg, h]
  · rw [resultTy, stub_expr_for_ty]
    cases h : stub_expr_for_ty t n <;> simp [firstTyArg, h]
  · rw [boxTy, stub_expr_for_ty]
    cases h : stub_expr_for_ty t n <;> simp [firstTyArg, h]
  · rw [stub_expr_for_ty]
    cases h : stubList ts n <;> simp [h]
  · rw [implIteratorTy, stub_expr_for_ty]
    simp [anyIterBound, Seg.ident, Path.segments]

/-- C3 counterexample: for the method `fn f(&self) -> ();` the
synthesized test body is the expression `()`, which contains no `todo!`
and returns normally instead of panicking. -/
theorem c3_counterexample :
    (testVariant exMethUnit).map (fun v => v.default) =
      some (some (.ofStub (.tupleE []))) ∧
    firstPanic (.tupleE []) = none ∧ todoNames (.tupleE []) = [] := by
  refine ⟨?_, ?_, ?_⟩
  · rw [testVariant]
    have hsb : stubBody (addSelfSized (withTestAttrs exMethUnit)).sig =
        some (.tupleE []) := by
      rw [stubBody]
      show stub_expr_for_ty (.tuple []) "f" = some (.tupleE [])
      rw [stub_expr_for_ty, stubList]
    rw [hsb]
    rfl
  · rw [firstPanic, firstPanicList]
  · rw [todoNames, todoNamesList]

/-- C3 (amended): every `todo!` in the synthesized test body of a
stubbed method carries that method's own name as its message, so the
body either panics with the method name or, when the stub contains no
`todo!` (e.g. for the return type `()`), returns normally. -/
theorem c3_stub_body_named_todos (meth : TraitItemFn) (l : List TraitItem)
    (hdef : meth.default = none) (h : processItem (.fn meth) = some l) :
    ∃ v2 e, l = [.fn (notTestVariant meth), .fn v2] ∧
      v2.default = some (.ofStub e) ∧
      (∀ m ∈ todoNames e, m = meth.sig.ident) ∧
      (firstPanic e = none ∨ firstPanic e = some meth.sig.ident) := by
  rw [processItem_fn_noDefault meth hdef] at h
  cases htv : testVariant meth with
  | none => rw [htv] at h; exact Option.noConfusion h
  | some v2 =>
    rw [htv] at h
    obtain rfl := Option.some_inj.mp h
    obtain ⟨e, hsb, rfl⟩ := testVariant_some htv
    have hnames : ∀ m ∈ todoNames e, m = meth.sig.ident := by
      have := stubBody_todoNames hsb
      rwa [addSelfSized_ident] at this
    refine ⟨_, e, rfl, rfl, hnames, ?_⟩
    cases hfp : firstPanic e with
    | none => exact Or.inl rfl
    | some m => exact Or.inr (by rw [hnames m (firstPanic_mem e m hfp)])

/-- Witness for C3 (amended) at the concrete method `fn g(&self);`. -/
theorem c3_witness :
    ∃ v2 e,
      ([TraitItem.fn (notTestVariant exMethG), TraitItem.fn exMethGTest]
        : List TraitItem) = [.fn (notTestVariant exMethG), .fn v2] ∧
      v2.default = some (.ofStub e) ∧
      (∀ m ∈ todoNames e, m = exMethG.sig.ident) ∧
      (firstPanic e = none ∨ firstPanic e = some exMethG.sig.ident) :=
  c3_stub_body_named_todos exMethG
    [.fn (notTestVariant exMethG), .fn exMethGTest] rfl rfl

/-- C4 evidence: the failing input is `#[cfg(test)] fn f(&self);`.  The
skip check of lines 91-94 compares the same attribute path against both
`cfg` and `test`, so it is false even on `#[cfg(test)]` itself, and the
macro duplicates the method into two items instead of passing it
through unchanged. -/
theorem c4_cfg_test_method_still_duplicated :
    exMethCfgTest.attrs = [cfgTestAttr] ∧
    exMethCfgTest.default = none ∧
    attrIsCfgTest cfgTestAttr = false ∧
    (processItem (.fn exMethCfgTest)).map List.length = some 2 :=
  ⟨rfl, rfl, rfl, rfl⟩

/-- C5 counterexample: `Foo<..>` with only a lifetime argument is not
specially recognized, yet the synthesizer panics (returns `none`)
instead of producing `todo!("f")`. -/
theorem c5_counterexample :
    unrecognized lifetimeOnlyTy = true ∧
    stub_expr_for_ty lifetimeOnlyTy "f" ≠ some (.todoNamed "f") := by
  refine ⟨rfl, ?_⟩
  rw [stub_expr_lifetimeOnly]
  exact fun hc => Option.noConfusion hc

/-- C5 (amended): for a return type the synthesizer does not specially
recognize, whenever it produces an expression at all, that expression
is exactly `todo!("<method name>")`; on some unrecognized types it
panics instead of producing an expression. -/
theorem c5_unrecognized_yields_plain_todo (ty : Ty) (n : String) (e : StubExpr)
    (hu : unrecognized ty = true) (h : stub_expr_for_ty ty n = some e) :
    e = .todoNamed n := by
  cases ty with
  | other =>
    rw [stub_expr_for_ty] at h
    exact (Option.some_inj.mp h).symm
  | tuple elems =>
    rw [unrecognized] at hu
    exact Bool.noConfusion hu
  | implTrait bounds =>
    rw [unrecognized] at hu
    have hb : bounds.any boundMentionsIterator = false := by simpa using hu
    rw [stub_expr_for_ty] at h
    cases hab : anyIterBound bounds with
    | none => rw [hab] at h; exact Option.noConfusion h
    | some tv =>
      cases tv with
      | false => rw [hab] at h; exact (Option.some_inj.mp h).symm
      | true => exact absurd hab (anyIterBound_of_not_mention hb)
  | path q p =>
    obtain ⟨lc, segs⟩ := p
    rw [stub_expr_for_ty] at h
    rw [unrecognized] at hu
    split at h
    · exact Option.noConfusion h
    · rename_i id args heq
      rw [heq] at hu
      cases args with
      | noArgs => exact (Option.some_inj.mp h).symm
      | parenthesized => exact (Option.some_inj.mp h).symm
      | angleBracketed gargs =>
        have hu2 : (if (firstTyArg gargs).isSome then
            !(id == "Box" || id == "Option" || id == "Result") else true) = true := hu
        split at h
        · rename_i hargs2 hga
          injection hargs2 with hg
          subst hg
          split at h
          · exact Option.noConfusion h
          · rename_i outerty hft
            rw [hft] at hu2
            simp at hu2
            obtain ⟨⟨hbox, hopt⟩, hres⟩ := hu2
            cases hstub : stub_expr_for_ty outerty n with
            | none => rw [hstub] at h; exact Option.noConfusion h
            | some stub =>
              rw [hstub] at h
              obtain rfl := Option.some_inj.mp h
              simp [hbox, hopt, hres]
        · split at h
          · exact Option.noConfusion h
          · rename_i outerty hft
            rw [hft] at hu2
            simp at hu2
            obtain ⟨⟨hbox, hopt⟩, hres⟩ := hu2
            cases hstub : stub_expr_for_ty outerty n with
            | none => rw [hstub] at h; exact Option.noConfusion h
            | some stub =>
              rw [hstub] at h
              obtain rfl := Option.some_inj.mp h
              simp [hbox, hopt, hres]

/-- Witness for C5 (amended) at the bare path type `u8`. -/
theorem c5_witness :
    unrecognized u8Ty = true ∧
    stub_expr_for_ty u8Ty "f" = some (.todoNamed "f") ∧
    StubExpr.todoNamed "f" = StubExpr.todoNamed "f" :=
  ⟨rfl, stub_expr_u8,
   c5_unrecognized_yields_plain_todo u8Ty "f" (.todoNamed "f") rfl stub_expr_u8⟩

/-- C6: a trait method that already has a default body, and a trait
item that is not a function, are both pushed to the output unchanged. -/
theorem c6_defaulted_and_nonfn_items_unchanged (meth : TraitItemFn) (b : Block)
    (hdef : meth.default = some b) (n : Nat) :
    processItem (.fn meth) = some [.fn meth] ∧
    processItem (.otherItem n) = some [.otherItem n] := by
  constructor
  · simp [processItem, hdef]
  · rfl

/-- Witness for C6 at a method with a default body and at item 0. -/
theorem c6_witness :
    processItem (.fn exMethDefault) = some [.fn exMethDefault] ∧
    processItem (.otherItem 0) = some [.otherItem 0] :=
  c6_defaulted_and_nonfn_items_unchanged exMethDefault (.userBody 0) rfl 0

/-- C7: the `#[cfg(not(test))]` variant of a duplicated method is the
original method with only the cfg attribute appended: same signature
(including the where clause), still no body. -/
theorem c7_not_test_variant_unchanged (meth : TraitItemFn) (l : List TraitItem)
    (hdef : meth.default = none) (h : processItem (.fn meth) = some l) :
    ∃ v2, l = [.fn (notTestVariant meth), .fn v2] ∧
      (notTestVariant meth).sig = meth.sig ∧
      (notTestVariant meth).default = none ∧
      (notTestVariant meth).attrs = meth.attrs ++ [cfgNotTestAttr] := by
  rw [processItem_fn_noDefault meth hdef] at h
  cases htv : testVariant meth with
  | none => rw [htv] at h; exact Option.noConfusion h
  | some v2 =>
    rw [htv] at h
    obtain rfl := Option.some_inj.mp h
    exact ⟨v2, rfl, rfl, hdef, rfl⟩

/-- Witness for C7 at the concrete method `fn g(&self);`. -/
theorem c7_witness :
    ∃ v2,
      ([TraitItem.fn (notTestVariant exMethG), TraitItem.fn exMethGTest]
        : List TraitItem) = [.fn (notTestVariant exMethG), .fn v2] ∧
      (notTestVariant exMethG).sig = exMethG.sig ∧
      (notTestVariant exMethG).default = none ∧
      (notTestVariant exMethG).attrs = exMethG.attrs ++ [cfgNotTestAttr] :=
  c7_not_test_variant_unchanged exMethG
    [.fn (notTestVariant exMethG), .fn exMethGTest] rfl rfl

/-- C8: for a duplicated method whose receiver is by-value `self`, the
`#[cfg(test)]` variant's where clause contains `Self: Sized`; the
predicate is appended only when no such predicate is present, so the
macro never introduces a second copy. -/
theorem c8_self_receiver_sized_predicate (meth : TraitItemFn) (l : List TraitItem)
    (hdef : meth.default = none)
    (hrecv : meth.sig.inputs.head? = some (.receiver false))
    (h : processItem (.fn meth) = some l) :
    ∃ v2 preds, l = [.fn (notTestVariant meth), .fn v2] ∧
      v2.sig.generics.whereClause = some preds ∧
      preds.any is_self_sized_pred = true ∧
      ((meth.sig.generics.whereClause.getD []).any is_self_sized_pred = true →
        preds = meth.sig.generics.whereClause.getD []) ∧
      ((meth.sig.generics.whereClause.getD []).any is_self_sized_pred = false →
        preds = meth.sig.generics.whereClause.getD [] ++ [selfSizedPred]) ∧
      ((meth.sig.generics.whereClause.getD []).countP is_self_sized_pred ≤ 1 →
        preds.countP is_self_sized_pred ≤ 1) := by
  rw [processItem_fn_noDefault meth hdef] at h
  cases htv : testVariant meth with
  | none => rw [htv] at h; exact Option.noConfusion h
  | some v2 =>
    rw [htv] at h
    obtain rfl := Option.some_inj.mp h
    obtain ⟨e, hsb, rfl⟩ := testVariant_some htv
    have hw := addSelfSized_recv (m := withTestAttrs meth) hrecv
    rw [show (withTestAttrs meth).sig = meth.sig from rfl] at hw
    by_cases ha : (meth.sig.generics.whereClause.getD []).any is_self_sized_pred
    · rw [if_pos ha] at hw
      refine ⟨_, _, rfl, hw, ha, fun _ => rfl, ?_, fun hc => hc⟩
      intro hfalse
      rw [ha] at hfalse
      exact Bool.noConfusion hfalse
    · rw [Bool.not_eq_true] at ha
      rw [if_neg (by rw [ha]; exact Bool.false_ne_true)] at hw
      refine ⟨_, _, rfl, hw, ?_, ?_, fun _ => rfl, ?_⟩
      · rw [List.any_append]
        simp [is_self_sized_selfSizedPred]
      · intro htrue
        rw [ha] at htrue
        exact Bool.noConfusion htrue
      · intro _
        rw [List.countP_append]
        have hz : (meth.sig.generics.whereClause.getD []).countP is_self_sized_pred = 0 := by
          rw [List.countP_eq_zero]
          intro p hp
          have := List.any_eq_false.mp ha p hp
          simpa using this
        rw [hz]
        simp [List.countP_cons, is_self_sized_selfSizedPred]

/-- Witness for C8 at the concrete method `fn x(self);`. -/
theorem c8_witness :
    ∃ v2 preds,
      ([TraitItem.fn (notTestVariant exMethSelf), TraitItem.fn exMethSelfTest]
        : List TraitItem) = [.fn (notTestVariant exMethSelf), .fn v2] ∧
      v2.sig.generics.whereClause = some preds ∧
      preds.any is_self_sized_pred = true ∧
      ((exMethSelf.sig.generics.whereClause.getD []).any is_self_sized_pred = true →
        preds = exMethSelf.sig.generics.whereClause.getD []) ∧
      ((exMethSelf.sig.generics.whereClause.getD []).any is_self_sized_pred = false →
        preds = exMethSelf.sig.generics.whereClause.getD [] ++ [selfSizedPred]) ∧
      ((exMethSelf.sig.generics.whereClause.getD []).countP is_self_sized_pred ≤ 1 →
        preds.countP is_self_sized_pred ≤ 1) :=
  c8_self_receiver_sized_predicate exMethSelf
    [.fn (notTestVariant exMethSelf), .fn exMethSelfTest] rfl rfl rfl

/-- C9: the stub synthesizer is not total: on a path type whose last
segment has angle-bracketed arguments containing no type argument, the
`unwrap` of the `find_map` panics (modelled by `none`). -/
theorem c9_stub_expr_for_ty_partial :
    stub_expr_for_ty lifetimeOnlyTy "f" = none :=
  stub_expr_lifetimeOnly

/-- C10: the rewrite is a pure function of the parsed input: runs on
equal input syntax trees give equal outputs. -/
theorem c10_deterministic (t1 t2 : ItemTrait) (h : t1 = t2) :
    test_stubs t1 = test_stubs t2 := by
  rw [h]

/-- Witness for C10 at the concrete trait `trait T { fn g(&self); }`. -/
theorem c10_witness : test_stubs exTrait = test_stubs exTrait :=
  c10_deterministic exTrait exTrait rfl

end TestStubs
